import Mathlib

/-!
Verification development for the transcript intake & idempotent processing core
of the ambient-transcripts-scraper repository.

Shallow embedding of:
* `src/database.py`   — `TranscriptTracker` (Progress Store)
* `src/client_mapper.py` — `ClientMapper` (Identity Resolver)
* `src/processor.py`  — `TranscriptProcessor` (Summarizer Adapter)
* `src/memory_updater.py` — `MemoryUpdater` (Observation Builder)
* `daily_sync.py`     — `DailySync` (Sync Orchestrator)
* `reorganize_transcripts.py` — bulk reorganization classifier

Modelling conventions:
* Python strings are Lean `String`s; character-level operations work on `List Char`.
* The SQLite table `processed_transcripts` is a `List Record`; `INSERT OR REPLACE`
  keyed on the UNIQUE `filepath` column is remove-then-append.  The `processed_at`
  timestamp column is not modelled (no claim mentions it).
* The external summarization call is an oracle `String → Except String Fields`;
  `Except.error e` models a raised exception with message `e`.
* Python `\d` is modelled as an ASCII digit (`Char.isDigit`); Python `str.strip`
  is modelled by `pyStrip` (whitespace per `Char.isWhitespace`).
-/

set_option maxRecDepth 8000

namespace Ambient

/-! ### Character-level utilities (Python string primitives) -/

/-- The backtick character. -/
def tick : Char := Char.ofNat 96

/-- The left-brace character. -/
def lbrace : Char := Char.ofNat 123

/-- The right-brace character. -/
def rbrace : Char := Char.ofNat 125

/-- Python `str.lstrip()` on characters. -/
def pyLstrip (l : List Char) : List Char := l.dropWhile Char.isWhitespace

/-- Python `str.rstrip()` on characters. -/
def pyRstrip (l : List Char) : List Char :=
  ((l.reverse.dropWhile Char.isWhitespace)).reverse

/-- Python `str.strip()` on characters. -/
def pyStrip (l : List Char) : List Char := pyRstrip (pyLstrip l)

/-- Python `pat in s` (substring containment) on characters. -/
def containsPat (pat : List Char) : List Char → Bool
  | [] => pat.isEmpty
  | l@(_ :: rest) => pat.isPrefixOf l || containsPat pat rest

/-- Python `str.lower()` on characters (ASCII). -/
def pyLower (l : List Char) : List Char := l.map Char.toLower

/-- The part of `l` before the first occurrence of `pat`
(`s.split(pat)[0]` in Python); all of `l` when `pat` does not occur. -/
def beforeFirst (pat : List Char) : List Char → List Char
  | [] => []
  | l@(c :: rest) => if pat.isPrefixOf l then [] else c :: beforeFirst pat rest

/-- The part of `l` after the first occurrence of `pat`; `[]` when `pat` does
not occur.  `s.split(pat)[1]` in Python is `beforeFirst pat (afterFirst pat l)`:
the segment between the first and second occurrences. -/
def afterFirst (pat : List Char) : List Char → List Char
  | [] => []
  | l@(_ :: rest) => if pat.isPrefixOf l then l.drop pat.length else afterFirst pat rest

/-- Python `s.replace(pat, rep)` (all occurrences), fuelled; fuel `≥ l.length`
suffices for non-empty `pat`. -/
def replaceAllF (pat rep : List Char) : Nat → List Char → List Char
  | 0, l => l
  | _ + 1, [] => []
  | n + 1, l@(c :: rest) =>
    if pat.isPrefixOf l then rep ++ replaceAllF pat rep n (l.drop pat.length)
    else c :: replaceAllF pat rep n rest

/-- Python `s.replace(pat, rep)` for strings. -/
def pyReplace (s pat rep : String) : String :=
  (replaceAllF pat.data rep.data s.data.length s.data).asString

/-- Python list slicing `xs[:n]` including negative `n`. -/
def pySlice (n : Int) (xs : List α) : List α :=
  if 0 ≤ n then xs.take n.toNat else xs.take ((xs.length : Int) + n).toNat

/-- Python truthiness chain `a or b` for an optional string (`None` and `""`
are falsy). -/
def pyOrStr (a : Option String) (b : String) : String :=
  match a with
  | some s => if s = "" then b else s
  | none => b

/-! ### Data model -/

/-- Structured summary fields returned by the Summarizer
(`process_transcript`'s JSON result, `processor.py`).  Every key is optional;
the all-`none` value models the empty Python dict `{}`. -/
structure Fields where
  meeting_title : Option String := none
  date : Option String := none
  project_client : Option String := none
  attendees : Option (List String) := none
  main_topics : Option (List String) := none
  key_context : Option (List String) := none
  implied_work : Option (List String) := none
deriving Repr, DecidableEq

/-- One row of the `processed_transcripts` table
(`database.py`, `_create_tables`); the `processed_at` timestamp is not
modelled. -/
structure Record where
  filepath : String
  filename : String
  meeting_date : String
  client_entity : String
  status : String
deriving Repr, DecidableEq

/-- The `client_mapping.json` configuration loaded by `ClientMapper.__init__`
(`client_mapper.py`); dicts keep insertion order, so both maps are association
lists. -/
structure MapperConfig where
  series_map : List (String × String)
  filename_patterns : List (String × String)
  default_client : String
deriving Repr, DecidableEq

/-- One transcript file as the orchestrator sees it: its path, basename
(`Path(filepath).name`), containing-folder name (`Path(filepath).parent.name`)
and contents. -/
structure FileInfo where
  path : String
  filename : String
  parent : String
  content : String
deriving Repr, DecidableEq

/-! ### Progress Store (`src/database.py`) -/

/-- `TranscriptTracker.mark_processed`: `INSERT OR REPLACE` keyed on the
UNIQUE `filepath` column — any existing row with the same path is deleted and
the new row inserted. -/
def mark_processed (st : List Record) (r : Record) : List Record :=
  (st.filter fun x => x.filepath ≠ r.filepath) ++ [r]

/-- `TranscriptTracker.is_processed`: a row with that path exists. -/
def is_processed (st : List Record) (p : String) : Bool :=
  st.any fun r => r.filepath == p

/-- `TranscriptTracker.get_unprocessed`: the candidates whose paths are not in
the table, preserving input order. -/
def get_unprocessed (st : List Record) (all_files : List String) : List String :=
  all_files.filter fun f => !(is_processed st f)

/-! ### Identity Resolver (`src/client_mapper.py`) -/

/-- `ClientMapper.get_client`: exact lookup in `meeting_series_to_client`,
falling back to the configured default. -/
def get_client (cfg : MapperConfig) (meeting_series : String) : String :=
  (cfg.series_map.lookup meeting_series).getD cfg.default_client

/-- The `for pattern, client in self.filename_patterns.items()` loop of
`ClientMapper.get_client_from_filename`. -/
def lookup_pattern (cfg : MapperConfig) (filename : String) :
    List (String × String) → String
  | [] => cfg.default_client
  | (pat, client) :: rest =>
    if containsPat (pyLower pat.data) (pyLower filename.data) then client
    else lookup_pattern cfg filename rest

/-- `ClientMapper.get_client_from_filename`: first pattern whose lowercased
text occurs in the lowercased filename wins; otherwise the default. -/
def get_client_from_filename (cfg : MapperConfig) (filename : String) : String :=
  lookup_pattern cfg filename cfg.filename_patterns

/-- The identity-resolution step of `DailySync.process_single`
(`daily_sync.py` lines 70–76): folder-name lookup, then the filename fallback
exactly when the lookup produced the literal string `"Other"`. -/
def resolved_client (cfg : MapperConfig) (series filename : String) : String :=
  let client := get_client cfg series
  if client = "Other" then get_client_from_filename cfg filename else client

/-! ### Observation Builder (`src/memory_updater.py`) -/

/-- `MemoryUpdater.format_entity_name`: replace spaces with underscores. -/
def format_entity_name (name : String) : String := pyReplace name " " "_"

/-- `MemoryUpdater.build_observation`: parts list assembled in source order,
joined by single spaces.  Each `if processed_data.get(k)` test is Python
truthiness: the key must be present with a non-empty list. -/
def build_observation (f : Fields) : String :=
  let date := f.date.getD "Unknown date"
  let parts := [date ++ ":"]
  let parts := parts ++
    (match f.main_topics with
     | some (t :: ts) =>
       ["Discussed " ++ String.intercalate ", " ((t :: ts).take 3) ++ "."]
     | _ => [])
  let parts := parts ++
    (match f.key_context with
     | some (c :: _) => [c]
     | _ => [])
  let parts := parts ++
    (match f.implied_work with
     | some (w :: _) => ["Potential follow-up: " ++ w]
     | _ => [])
  String.intercalate " " parts

/-! ### Sync Orchestrator (`daily_sync.py`) -/

/-- `DailySync.extract_date_from_filename`: leftmost `\d{4}-\d{2}-\d{2}` match
starting at the head of the remaining text. -/
def dateAt : List Char → Bool
  | a :: b :: c :: d :: x :: e :: f :: y :: g :: h :: _ =>
    a.isDigit && b.isDigit && c.isDigit && d.isDigit && (x == '-') &&
    e.isDigit && f.isDigit && (y == '-') && g.isDigit && h.isDigit
  | _ => false

/-- Leftmost ten-character date token in `l`, if any. -/
def findDate : List Char → Option (List Char)
  | [] => none
  | l@(_ :: rest) => if dateAt l then some (l.take 10) else findDate rest

/-- `DailySync.extract_date_from_filename` (`re.search` for
`(\d{4}-\d{2}-\d{2})`). -/
def extract_date_from_filename (filename : String) : Option String :=
  (findDate filename.data).map List.asString

/-- The summarizer stage as the orchestrator uses it
(`TranscriptProcessor.process_file` / `process_transcript`): whitespace-only
content short-circuits to the empty field set with no external call; otherwise
the oracle is invoked once on the content truncated to 50000 characters.
The second component counts external calls. -/
def process_file_model (oracle : String → Except String Fields) (content : String) :
    Except String Fields × Nat :=
  if pyStrip content.data = [] then (Except.ok {}, 0)
  else (oracle (content.data.take 50000).asString, 1)

/-- `meeting_date = processed.get("date") or extract_date_from_filename(...) or "unknown"`
with Python `or` truthiness. -/
def meeting_date_of (f : Fields) (filename : String) : String :=
  pyOrStr f.date (pyOrStr (extract_date_from_filename filename) "unknown")

/-- Result of `DailySync.process_single`: updated Progress Store, queued
memory observations (`(entity, observation)` pairs, appended write-through),
the boolean return value, and the number of external summarizer calls. -/
structure SingleOut where
  store : List Record
  mem : List (String × String)
  ok : Bool
  calls : Nat
deriving Repr, DecidableEq

/-- `DailySync.process_single`: resolve identity, summarize, then record
exactly one terminal row for the path.  The only fallible stage of the
embedding is the summarizer oracle; the `try/except` in the source catches any
exception, records `status = "error: " + str(e)[:100]` with both
`meeting_date` and `client_entity` set to the literal `"unknown"`, and returns
`False`. -/
def process_single (cfg : MapperConfig) (oracle : String → Except String Fields)
    (st : List Record) (mem : List (String × String)) (f : FileInfo) : SingleOut :=
  let client := resolved_client cfg f.parent f.filename
  match process_file_model oracle f.content with
  | (Except.error e, n) =>
    ⟨mark_processed st ⟨f.path, f.filename, "unknown", "unknown", "error: " ++ (e.data.take 100).asString⟩,
     mem, false, n⟩
  | (Except.ok fields, n) =>
    if fields = ({} : Fields) then
      ⟨mark_processed st ⟨f.path, f.filename, "unknown", client, "empty"⟩, mem, false, n⟩
    else
      ⟨mark_processed st ⟨f.path, f.filename, meeting_date_of fields f.filename, client, "success"⟩,
       mem ++ [(format_entity_name client, build_observation fields)],
       true, n⟩

/-- The per-file loop of `DailySync.run`: returns the final store, the queued
observations, and the `(success, failed, calls)` counters. -/
def runList (cfg : MapperConfig) (oracle : String → Except String Fields) :
    List FileInfo → List Record → List (String × String) →
    List Record × List (String × String) × Nat × Nat × Nat
  | [], st, mem => (st, mem, 0, 0, 0)
  | f :: fs, st, mem =>
    let out := process_single cfg oracle st mem f
    let rest := runList cfg oracle fs out.store out.mem
    (rest.1, rest.2.1,
     (if out.ok then rest.2.2.1 + 1 else rest.2.2.1),
     (if out.ok then rest.2.2.2.1 else rest.2.2.2.1 + 1),
     out.calls + rest.2.2.2.2)

/-- The candidate list of `DailySync.run`: discovered files minus processed
paths, then `unprocessed[:limit]` guarded by Python truthiness of `limit`
(`None` and `0` mean no truncation; negative values use Python slice
semantics). -/
def candidatesOf (st₀ : List Record) (files : List FileInfo) (limit : Option Int) :
    List FileInfo :=
  let unp := files.filter fun f => !(is_processed st₀ f.path)
  match limit with
  | none => unp
  | some n => if n = 0 then unp else pySlice n unp

/-- Aggregate result of `DailySync.run` (timing fields are not modelled;
`calls` counts external summarizer invocations across the run). -/
structure RunResult where
  store : List Record
  mem : List (String × String)
  total : Nat
  success : Nat
  failed : Nat
  calls : Nat
deriving Repr, DecidableEq

/-- `DailySync.run`: discover, filter, truncate, process sequentially, and
report `total = len(unprocessed)` (measured after truncation). -/
def run (cfg : MapperConfig) (oracle : String → Except String Fields)
    (limit : Option Int) (st₀ : List Record) (mem₀ : List (String × String))
    (files : List FileInfo) : RunResult :=
  let cands := candidatesOf st₀ files limit
  let out := runList cfg oracle cands st₀ mem₀
  ⟨out.1, out.2.1, cands.length, out.2.2.1, out.2.2.2.1, out.2.2.2.2⟩

/-! ### JSON values and a parser modelling `json.loads`
(subset: objects, arrays, strings with simple escapes, integers, booleans,
null — enough to evaluate the adapter on concrete responses; general theorems
treat the parser as a black box). -/

/-- A parsed JSON value (`json.loads` result). -/
inductive JVal where
  | jnull
  | jbool (b : Bool)
  | jnum (n : Int)
  | jstr (s : String)
  | jarr (xs : List JVal)
  | jobj (kvs : List (String × JVal))
deriving Repr, Inhabited

/-- Skip JSON whitespace. -/
def skipWs (l : List Char) : List Char := l.dropWhile Char.isWhitespace

/-- Decode one JSON string escape. -/
def unescape (c : Char) : Option Char :=
  if c = '"' then some '"'
  else if c = '\\' then some '\\'
  else if c = '/' then some '/'
  else if c = 'n' then some '\n'
  else if c = 't' then some '\t'
  else if c = 'r' then some '\r'
  else none

/-- Parse the body of a JSON string after the opening quote, up to and
including the closing quote. -/
def strBody : Nat → List Char → Option (List Char × List Char)
  | 0, _ => none
  | _ + 1, [] => none
  | n + 1, c :: rest =>
    if c = '"' then some ([], rest)
    else if c = '\\' then
      match rest with
      | e :: rest' =>
        match unescape e with
        | some ce => (strBody n rest').map fun p => (ce :: p.1, p.2)
        | none => none
      | [] => none
    else (strBody n rest).map fun p => (c :: p.1, p.2)

/-- Digits to an integer value. -/
def digitsToInt (l : List Char) : Int :=
  l.foldl (fun a c => a * 10 + ((c.toNat : Int) - 48)) 0

/-- Parse a non-empty run of digits. -/
def parseDigits (l : List Char) : Option (Int × List Char) :=
  let p := l.span Char.isDigit
  if p.1.isEmpty then none else some (digitsToInt p.1, p.2)

/-- Expect a literal keyword. -/
def expectLit (kw : List Char) (l : List Char) : Option (List Char) :=
  if kw.isPrefixOf l then some (l.drop kw.length) else none

mutual

/-- Parse one JSON value (fuelled recursive descent). -/
def parseVal : Nat → List Char → Option (JVal × List Char)
  | 0, _ => none
  | n + 1, l =>
    match skipWs l with
    | [] => none
    | c :: rest =>
      if c = lbrace then (parseObj n rest).map fun p => (JVal.jobj p.1, p.2)
      else if c = '[' then (parseArr n rest).map fun p => (JVal.jarr p.1, p.2)
      else if c = '"' then
        (strBody (rest.length + 1) rest).map fun p => (JVal.jstr p.1.asString, p.2)
      else if c = 'n' then (expectLit ['u', 'l', 'l'] rest).map fun r => (JVal.jnull, r)
      else if c = 't' then (expectLit ['r', 'u', 'e'] rest).map fun r => (JVal.jbool true, r)
      else if c = 'f' then
        (expectLit ['a', 'l', 's', 'e'] rest).map fun r => (JVal.jbool false, r)
      else if c = '-' then (parseDigits rest).map fun p => (JVal.jnum (-p.1), p.2)
      else if c.isDigit then (parseDigits (c :: rest)).map fun p => (JVal.jnum p.1, p.2)
      else none

/-- Parse array elements after `[`. -/
def parseArr : Nat → List Char → Option (List JVal × List Char)
  | 0, _ => none
  | n + 1, l =>
    match skipWs l with
    | ']' :: rest => some ([], rest)
    | l' =>
      match parseVal n l' with
      | some (v, r) => (parseArrRest n r).map fun p => (v :: p.1, p.2)
      | none => none

/-- Parse `, value`* `]`. -/
def parseArrRest : Nat → List Char → Option (List JVal × List Char)
  | 0, _ => none
  | n + 1, l =>
    match skipWs l with
    | ']' :: rest => some ([], rest)
    | ',' :: rest =>
      match parseVal n rest with
      | some (v, r) => (parseArrRest n r).map fun p => (v :: p.1, p.2)
      | none => none
    | _ => none

/-- Parse one `"key": value` member. -/
def parseMember : Nat → List Char → Option ((String × JVal) × List Char)
  | 0, _ => none
  | n + 1, l =>
    match skipWs l with
    | '"' :: rest =>
      match strBody (rest.length + 1) rest with
      | some (k, r) =>
        match skipWs r with
        | ':' :: r' => (parseVal n r').map fun p => ((k.asString, p.1), p.2)
        | _ => none
      | none => none
    | _ => none

/-- Parse object members after `{`. -/
def parseObj : Nat → List Char → Option (List (String × JVal) × List Char)
  | 0, _ => none
  | n + 1, l =>
    match skipWs l with
    | [] => none
    | c :: rest =>
      if c = rbrace then some ([], rest)
      else
        match parseMember n (c :: rest) with
        | some (kv, r) => (parseObjRest n r).map fun p => (kv :: p.1, p.2)
        | none => none

/-- Parse `, member`* `}`. -/
def parseObjRest : Nat → List Char → Option (List (String × JVal) × List Char)
  | 0, _ => none
  | n + 1, l =>
    match skipWs l with
    | [] => none
    | c :: rest =>
      if c = rbrace then some ([], rest)
      else if c = ',' then
        match parseMember n rest with
        | some (kv, r) => (parseObjRest n r).map fun p => (kv :: p.1, p.2)
        | none => none
      else none

end

/-- `json.loads`: parse a complete JSON document (trailing garbage rejected). -/
def jparse (l : List Char) : Option JVal :=
  match parseVal (2 * l.length + 2) l with
  | some (v, rest) => if skipWs rest = [] then some v else none
  | none => none

/-! ### Summarizer response parsing (`processor.py`, `process_transcript`) -/

/-- The three-backtick fence. -/
def t3 : List Char := "```".data

/-- The fence with the `json` language tag. -/
def t3json : List Char := "```json".data

/-- The fence-extraction of `process_transcript`:
`result_text.split("```json")[1].split("```")[0]` when a `json`-tagged fence
occurs, else `result_text.split("```")[1].split("```")[0]` when any fence
occurs, else the whole text.  `split(p)[1]` is the segment between the first
and second occurrences of `p`. -/
def fencedExtract (l : List Char) : List Char :=
  if containsPat t3json l then
    beforeFirst t3 (beforeFirst t3json (afterFirst t3json l))
  else if containsPat t3 l then
    beforeFirst t3 (beforeFirst t3 (afterFirst t3 l))
  else l

/-- The response-parsing stage of `TranscriptProcessor.process_transcript`
(source lines 44–55): fence extraction, `strip`, `json.loads`, with
`(json.JSONDecodeError, IndexError)` caught and mapped to the empty dict. -/
def parse_response (resultText : String) : JVal :=
  match jparse (pyStrip (fencedExtract resultText.data)) with
  | some v => v
  | none => JVal.jobj []

/-- Parse a segment after `strip`, or the empty dict on failure
(specification-side description of the degraded parse). -/
def parseOrEmpty (l : List Char) : JVal :=
  (jparse (pyStrip l)).getD (JVal.jobj [])

/-- Modelled from claim C6's words: strip an optional leading code fence
(with or without a language tag — everything through the end of the fence
line) and an optional trailing fence, then parse the remainder as JSON,
returning the empty field set on failure. -/
def claimC6_parse (resultText : String) : JVal :=
  let l := pyStrip resultText.data
  let l := if t3.isPrefixOf l then ((l.drop 3).dropWhile (fun c => c ≠ '\n')).drop 1 else l
  let l := if t3.isSuffixOf l then l.take (l.length - 3) else l
  match jparse (pyStrip l) with
  | some v => v
  | none => JVal.jobj []

/-! ### Bulk reorganization classifier (`reorganize_transcripts.py`) -/

/-- `CLIENT_MAPPINGS`: ranked (folder, keywords) pairs, first match wins. -/
def CLIENT_MAPPINGS : List (String × List String) := [
  ("Asurion", ["asurion", "section x asurion", "asurion x section"]),
  ("ABI", ["abi ", "abi_", " abi", "ab inbev"]),
  ("General Catalyst", [
    "general catalyst", " gc ", "gc x section", "gc prep", "gc event",
    "gc leaders", "gc functional", "gc ai for leaders", "gc internal",
    "zoom_ hatco x section ai", "zoom_ imco x section ai",
    "zoom_ ir x section ai", "zoom_ hr x section ai",
    "zoom_ gc capital x section ai", "zoom_ marketing x section ai",
    "zoom_ legal & compliance x section ai",
    "zoom_ operations x section ai",
    "zoom _ gcw ai champions x section",
    "hatco prompt file"]),
  ("Havas", ["havas"]),
  ("HP", ["hp x section", "hp+section", "hp ai summit"]),
  ("L\x27Oreal", ["l\x27oreal", "loreal"]),
  ("Comcast", ["comcast"]),
  ("Autodesk", ["autodesk"]),
  ("Horizon", ["horizon", "martech 101"]),
  ("DeckSense", ["decksense", "deck sense", "wireframe review", "design sprint",
    "feature prioritization", "ui review"]),
  ("OpenAI", ["openai", "open ai", "oai partner"]),
  ("10x AI", ["10x ai"]),
  ("Builder", ["builder in a day", "building llm automations", "building agentic workflows"]),
  ("Unilever", ["unilever"]),
  ("BSWH", ["bswh"])]

/-- `RECURRING_SERIES`: meetings that get their own folder. -/
def RECURRING_SERIES : List String := [
  "All Hands",
  "AIT Consulting Weekly",
  "Weekly Proposal Review",
  "Kyra & Alli 1x1",
  "Lauren _ Kyra 1_1",
  "Kyra _ Mary 1_1",
  "Kyra __ Tom Monday Check In",
  "Tom _ Kyra_ Working Session",
  "Education Team Weekly",
  "AI Transformation Lead Bootcamp Biweekly Sync",
  "Direct to Employee Experiences Weekly",
  "Enterprise Workshops Weekly",
  "Company Lunch & Learn"]

/-- `PERSONAL_KEYWORDS`. -/
def PERSONAL_KEYWORDS : List String := [
  "pa nkwate", "funeral", "ojukwu", "maryland wake", "maryland funeral",
  "fotemah", "celebration of life"]

/-- The trailing suffix stripped by `extract_title`. -/
def suffixTxtChars : List Char := " transcript.txt".data

/-- `DATE_RE` (`' (\d{4}-\d{2}-\d{2}) '`) matching at the head of the list:
a date token surrounded by spaces. -/
def spacedDateAt : List Char → Bool
  | s1 :: a :: b :: c :: d :: x :: e :: f :: y :: g :: h :: s2 :: _ =>
    (s1 == ' ') && a.isDigit && b.isDigit && c.isDigit && d.isDigit && (x == '-') &&
    e.isDigit && f.isDigit && (y == '-') && g.isDigit && h.isDigit && (s2 == ' ')
  | _ => false

/-- Index of the leftmost `DATE_RE` match (`m.start()`: the index of the
leading space). -/
def findSpacedDate : List Char → Option Nat
  | [] => none
  | l@(_ :: rest) =>
    if spacedDateAt l then some 0 else (findSpacedDate rest).map (· + 1)

/-- `extract_title`: everything before the date token, stripped; when no date
token occurs, the filename with every occurrence of `" transcript.txt"`
removed (`str.replace` replaces all occurrences), stripped. -/
def extract_title (filename : String) : String :=
  match findSpacedDate filename.data with
  | some i => (pyStrip (filename.data.take i)).asString
  | none => (pyStrip (replaceAllF suffixTxtChars [] filename.data.length filename.data)).asString

/-- Step 1 of `classify_file`: the nested
`for folder, keywords in CLIENT_MAPPINGS: for kw in keywords: if kw in lower`
loops. -/
def matchKeywordRules : List (String × List String) → List Char → Option String
  | [], _ => none
  | (folder, kws) :: rest, lower =>
    if kws.any (fun kw => containsPat kw.data lower) then some folder
    else matchKeywordRules rest lower

/-- Step 3 of `classify_file`:
`if title == series or title.rstrip() == series: return series`. -/
def findSeries : List String → String → Option String
  | [], _ => none
  | series :: rest, title =>
    if title == series || (pyRstrip title.data).asString == series then some series
    else findSeries rest title

/-- `classify_file`: the four-step cascade over a raw filename. -/
def classify_file (filename : String) : String :=
  let title := extract_title filename
  let lower := pyLower filename.data
  match matchKeywordRules CLIENT_MAPPINGS lower with
  | some folder => folder
  | none =>
    if PERSONAL_KEYWORDS.any (fun kw => containsPat kw.data lower) then "Personal"
    else
      match findSeries RECURRING_SERIES title with
      | some series => series
      | none => "Individual Meetings"

/-! ### Specification-side definitions (modelled from the claims' words) -/

/-- Modelled from claim C2's words: the most recent `mark_processed` call for
a path, across the whole call sequence. -/
def latestCallFor (calls : List Record) (p : String) : Option Record :=
  calls.reverse.find? fun r => r.filepath == p

/-- A whole sequence of `mark_processed` calls applied to a store. -/
def applyMarks (calls : List Record) (st : List Record) : List Record :=
  calls.foldl mark_processed st

/-- Modelled from claim C5's words: the label of the first pattern, in rule
order, that is a case-insensitive substring of the filename; the default when
none matches. -/
def claimC5_fallback (cfg : MapperConfig) (filename : String) : String :=
  match cfg.filename_patterns.find?
      (fun pr => containsPat (pyLower pr.1.data) (pyLower filename.data)) with
  | some pr => pr.2
  | none => cfg.default_client

/-- Modelled from claim C8's words: the four segments in fixed order (absent
segments contribute nothing), joined by single spaces. -/
def claimC8_observation (f : Fields) : String :=
  String.intercalate " " (List.filterMap id
    [some ((match f.date with | some d => d | none => "Unknown date") ++ ":"),
     (match f.main_topics with
      | some (t :: ts) => some ("Discussed " ++ String.intercalate ", " ((t :: ts).take 3) ++ ".")
      | _ => none),
     (match f.key_context with
      | some (c :: _) => some c
      | _ => none),
     (match f.implied_work with
      | some (w :: _) => some ("Potential follow-up: " ++ w)
      | _ => none)])

/-- Remove one trailing occurrence of a suffix, if present. -/
def stripTrailingOnce (sfx l : List Char) : List Char :=
  if sfx.isSuffixOf l then l.take (l.length - sfx.length) else l

/-- Modelled from claim C9's words: the title is everything before the spaced
date token, trimmed, or — when no token exists — the filename with the known
TRAILING suffix stripped, trimmed. -/
def claimC9_title (filename : String) : String :=
  match findSpacedDate filename.data with
  | some i => (pyStrip (filename.data.take i)).asString
  | none => (pyStrip (stripTrailingOnce suffixTxtChars filename.data)).asString

/-- Modelled from claim C9's words: the four-step first-match-wins cascade,
parameterised by the extracted title. -/
def claimC9_cascade (title : String) (lower : List Char) : String :=
  match CLIENT_MAPPINGS.find? (fun pr => pr.2.any fun kw => containsPat kw.data lower) with
  | some pr => pr.1
  | none =>
    if PERSONAL_KEYWORDS.any (fun kw => containsPat kw.data lower) then "Personal"
    else if RECURRING_SERIES.contains title then title
    else "Individual Meetings"

/-- Claim C9 exactly as stated (trailing-suffix title fallback). -/
def claimC9_classify (filename : String) : String :=
  claimC9_cascade (claimC9_title filename) (pyLower filename.data)

/-- Claim C9 as amended: the title fallback removes every occurrence of the
suffix, as `str.replace` does. -/
def claimC9am_classify (filename : String) : String :=
  claimC9_cascade (extract_title filename) (pyLower filename.data)

/-- A concrete five-candidate batch (distinct paths, non-blank contents) for
the partial-failure scenario. -/
def batchC3 : List FileInfo := [
  ⟨"/t/f1.txt", "f1.txt", "t", "c1"⟩,
  ⟨"/t/f2.txt", "f2.txt", "t", "c2"⟩,
  ⟨"/t/f3.txt", "f3.txt", "t", "c3"⟩,
  ⟨"/t/f4.txt", "f4.txt", "t", "c4"⟩,
  ⟨"/t/f5.txt", "f5.txt", "t", "c5"⟩]

/-- A summarizer oracle that raises exactly on the third file's contents. -/
def oracleC3 : String → Except String Fields := fun s =>
  if s = "c3" then Except.error "boom during summarization"
  else Except.ok { date := some "2025-01-01" }

/-- A configuration mapping the batch's folder to a client. -/
def cfgC3 : MapperConfig := ⟨[("t", "Asurion")], [], "Other"⟩

/-! ## Lemmas about the Progress Store -/

theorem filter_eq_of_filter_ne (st : List Record) (q : String) :
    (st.filter fun x => x.filepath ≠ q).filter (fun x => x.filepath == q) = [] := by
  simp only [List.filter_filter]
  rw [List.filter_eq_nil_iff]
  intro a _
  by_cases h : a.filepath = q <;> simp [h]

theorem filter_path_comm (st : List Record) (q p : String) (h : p ≠ q) :
    (st.filter fun x => x.filepath ≠ q).filter (fun x => x.filepath == p) =
      st.filter (fun x => x.filepath == p) := by
  simp only [List.filter_filter]
  apply List.filter_congr
  intro a _
  by_cases hp : a.filepath = p
  · have hq : a.filepath ≠ q := by rw [hp]; exact h
    simp [hp, hq, h]
  · simp [hp]

theorem filter_path_mark (st : List Record) (r : Record) (p : String) :
    (mark_processed st r).filter (fun x => x.filepath == p) =
      if r.filepath = p then [r]
      else st.filter (fun x => x.filepath == p) := by
  unfold mark_processed
  rw [List.filter_append]
  by_cases h : r.filepath = p
  · subst h
    simp [filter_eq_of_filter_ne]
  · have hp : p ≠ r.filepath := fun hh => h hh.symm
    rw [filter_path_comm st r.filepath p hp]
    simp [h]

theorem latestCallFor_cons (c : Record) (cs : List Record) (p : String) :
    latestCallFor (c :: cs) p =
      (latestCallFor cs p).or (if c.filepath == p then some c else none) := by
  simp [latestCallFor, List.find?_append]

theorem applyMarks_filter (calls : List Record) (st : List Record) (p : String) :
    (applyMarks calls st).filter (fun r => r.filepath == p) =
      (match latestCallFor calls p with
       | some r => [r]
       | none => st.filter (fun r => r.filepath == p)) := by
  induction calls generalizing st with
  | nil => simp [applyMarks, latestCallFor]
  | cons c cs ih =>
    have step : applyMarks (c :: cs) st = applyMarks cs (mark_processed st c) := rfl
    rw [step, ih, latestCallFor_cons]
    cases hl : latestCallFor cs p with
    | some r => simp
    | none =>
      by_cases h : c.filepath = p
      · simp [h, filter_path_mark]
      · have hb : (c.filepath == p) = false := by simp [h]
        simp [hb, filter_path_mark, h]

/-! ## Lemmas about the orchestrator loop -/

theorem any_path_filter_ne (st : List Record) (q p : String) (h : p ≠ q) :
    ((st.filter fun x => x.filepath ≠ q).any fun r => r.filepath == p) =
      (st.any fun r => r.filepath == p) := by
  induction st with
  | nil => rfl
  | cons a t ih =>
    rw [List.filter_cons]
    by_cases ha : a.filepath = q
    · rw [if_neg (by simp [ha]), ih, List.any_cons]
      have hap : (a.filepath == p) = false := by
        rw [ha]
        exact beq_eq_false_iff_ne.mpr fun hh => h hh.symm
      rw [hap, Bool.false_or]
    · rw [if_pos (by simp [ha]), List.any_cons, List.any_cons, ih]

theorem is_processed_mark (st : List Record) (r : Record) (p : String) :
    is_processed (mark_processed st r) p =
      (is_processed st p || (r.filepath == p)) := by
  unfold is_processed mark_processed
  rw [List.any_append]
  by_cases h : r.filepath = p
  · simp [h]
  · have hb : (r.filepath == p) = false := by simp [h]
    have hp : p ≠ r.filepath := fun hh => h hh.symm
    rw [any_path_filter_ne st r.filepath p hp]
    show ((st.any fun x => x.filepath == p) || ([r].any fun x => x.filepath == p)) =
      ((st.any fun x => x.filepath == p) || (r.filepath == p))
    rw [List.any_cons, List.any_nil, Bool.or_false]

theorem process_single_store (cfg : MapperConfig) (oracle : String → Except String Fields)
    (st : List Record) (mem : List (String × String)) (f : FileInfo) :
    ∃ r : Record, r.filepath = f.path ∧
      (process_single cfg oracle st mem f).store = mark_processed st r := by
  unfold process_single
  rcases h : process_file_model oracle f.content with ⟨res, n⟩
  cases res with
  | error e =>
    exact ⟨⟨f.path, f.filename, "unknown", "unknown", "error: " ++ (e.data.take 100).asString⟩, rfl, rfl⟩
  | ok fields =>
    by_cases hf : fields = ({} : Fields)
    · refine ⟨⟨f.path, f.filename, "unknown", resolved_client cfg f.parent f.filename,
        "empty"⟩, rfl, ?_⟩
      simp [hf]
    · refine ⟨⟨f.path, f.filename, meeting_date_of fields f.filename,
        resolved_client cfg f.parent f.filename, "success"⟩, rfl, ?_⟩
      simp [hf]

theorem runList_cons_store (cfg : MapperConfig) (oracle : String → Except String Fields)
    (f : FileInfo) (fs : List FileInfo) (st : List Record) (mem : List (String × String)) :
    (runList cfg oracle (f :: fs) st mem).1 =
      (runList cfg oracle fs (process_single cfg oracle st mem f).store
        (process_single cfg oracle st mem f).mem).1 := rfl

theorem runList_cons_mem (cfg : MapperConfig) (oracle : String → Except String Fields)
    (f : FileInfo) (fs : List FileInfo) (st : List Record) (mem : List (String × String)) :
    (runList cfg oracle (f :: fs) st mem).2.1 =
      (runList cfg oracle fs (process_single cfg oracle st mem f).store
        (process_single cfg oracle st mem f).mem).2.1 := rfl

theorem runList_is_processed (cfg : MapperConfig) (oracle : String → Except String Fields)
    (cs : List FileInfo) (st : List Record) (mem : List (String × String)) (p : String) :
    is_processed (runList cfg oracle cs st mem).1 p =
      (is_processed st p || cs.any fun f => f.path == p) := by
  induction cs generalizing st mem with
  | nil => simp [runList]
  | cons f fs ih =>
    obtain ⟨r, hr, hst⟩ := process_single_store cfg oracle st mem f
    rw [runList_cons_store, ih, hst, is_processed_mark, hr, List.any_cons]
    cases is_processed st p <;> cases hb : (f.path == p) <;>
      cases hc : (fs.any fun g => g.path == p) <;> rfl

theorem runList_counts (cfg : MapperConfig) (oracle : String → Except String Fields)
    (cs : List FileInfo) (st : List Record) (mem : List (String × String)) :
    (runList cfg oracle cs st mem).2.2.1 + (runList cfg oracle cs st mem).2.2.2.1 =
      cs.length := by
  induction cs generalizing st mem with
  | nil => simp [runList]
  | cons f fs ih =>
    have h := ih (process_single cfg oracle st mem f).store
      (process_single cfg oracle st mem f).mem
    show (if (process_single cfg oracle st mem f).ok then _ + 1 else _) +
      (if (process_single cfg oracle st mem f).ok then _ else _ + 1) = fs.length + 1
    cases (process_single cfg oracle st mem f).ok
    · simp only [Bool.false_eq_true, if_false]
      omega
    · rw [if_pos rfl, if_pos rfl]
      omega

theorem run_store (cfg : MapperConfig) (oracle : String → Except String Fields)
    (limit : Option Int) (st₀ : List Record) (mem₀ : List (String × String))
    (files : List FileInfo) :
    (run cfg oracle limit st₀ mem₀ files).store =
      (runList cfg oracle (candidatesOf st₀ files limit) st₀ mem₀).1 := rfl

theorem run_eq (cfg : MapperConfig) (oracle : String → Except String Fields)
    (limit : Option Int) (st₀ : List Record) (mem₀ : List (String × String))
    (files : List FileInfo) :
    run cfg oracle limit st₀ mem₀ files =
      ⟨(runList cfg oracle (candidatesOf st₀ files limit) st₀ mem₀).1,
       (runList cfg oracle (candidatesOf st₀ files limit) st₀ mem₀).2.1,
       (candidatesOf st₀ files limit).length,
       (runList cfg oracle (candidatesOf st₀ files limit) st₀ mem₀).2.2.1,
       (runList cfg oracle (candidatesOf st₀ files limit) st₀ mem₀).2.2.2.1,
       (runList cfg oracle (candidatesOf st₀ files limit) st₀ mem₀).2.2.2.2⟩ := rfl

theorem candidatesOf_nil_of_all_processed (st : List Record) (files : List FileInfo)
    (limit : Option Int) (h : ∀ f ∈ files, is_processed st f.path = true) :
    candidatesOf st files limit = [] := by
  have h0 : (files.filter fun f => !(is_processed st f.path)) = [] := by
    rw [List.filter_eq_nil_iff]
    intro f hf
    simp [h f hf]
  cases limit with
  | none => simpa [candidatesOf] using h0
  | some n =>
    by_cases hn : n = 0
    · simpa [candidatesOf, hn] using h0
    · simp [candidatesOf, hn, h0, pySlice]

theorem run_of_no_candidates (cfg : MapperConfig) (oracle : String → Except String Fields)
    (limit : Option Int) (st₀ : List Record) (mem₀ : List (String × String))
    (files : List FileInfo) (h : candidatesOf st₀ files limit = []) :
    run cfg oracle limit st₀ mem₀ files = ⟨st₀, mem₀, 0, 0, 0, 0⟩ := by
  unfold run
  rw [h]
  rfl

/-! ## Claim theorems -/

/-- Claim C1: for an unchanged source directory, after one complete
`runSync` invocation (no limit, so every discovered file reaches a terminal
record), `unprocessedOf` of the discovered paths is empty, and a second
invocation — whatever its limit — processes zero files, queues no new
observation, and leaves the Progress Store unchanged. -/
theorem c1_idempotence (cfg : MapperConfig) (oracle : String → Except String Fields)
    (st₀ : List Record) (mem₀ : List (String × String)) (files : List FileInfo)
    (limit₂ : Option Int) :
    get_unprocessed (run cfg oracle none st₀ mem₀ files).store
      (files.map FileInfo.path) = [] ∧
    (run cfg oracle limit₂ (run cfg oracle none st₀ mem₀ files).store
      (run cfg oracle none st₀ mem₀ files).mem files).total = 0 ∧
    (run cfg oracle limit₂ (run cfg oracle none st₀ mem₀ files).store
      (run cfg oracle none st₀ mem₀ files).mem files).mem =
      (run cfg oracle none st₀ mem₀ files).mem ∧
    (run cfg oracle limit₂ (run cfg oracle none st₀ mem₀ files).store
      (run cfg oracle none st₀ mem₀ files).mem files).store =
      (run cfg oracle none st₀ mem₀ files).store := by
  have hall : ∀ f ∈ files,
      is_processed (run cfg oracle none st₀ mem₀ files).store f.path = true := by
    intro f hf
    rw [run_store, runList_is_processed]
    cases hp : is_processed st₀ f.path
    · have hmem : f ∈ candidatesOf st₀ files none := by
        simp [candidatesOf, List.mem_filter, hf, hp]
      have hany : ((candidatesOf st₀ files none).any fun g => g.path == f.path) = true :=
        List.any_eq_true.mpr ⟨f, hmem, by simp⟩
      simp [hany]
    · simp
  have hcand2 : candidatesOf (run cfg oracle none st₀ mem₀ files).store files limit₂ = [] :=
    candidatesOf_nil_of_all_processed _ files limit₂ hall
  have hrun2 := run_of_no_candidates cfg oracle limit₂
    (run cfg oracle none st₀ mem₀ files).store
    (run cfg oracle none st₀ mem₀ files).mem files hcand2
  refine ⟨?_, by rw [hrun2], by rw [hrun2], by rw [hrun2]⟩
  unfold get_unprocessed
  rw [List.filter_eq_nil_iff]
  intro p hp
  obtain ⟨f, hf, rfl⟩ := List.mem_map.mp hp
  simp [hall f hf]

/-- Claim C2: starting from the freshly created (empty) table, after any
sequence of `mark_processed` calls the store holds at most one row per path,
and the row for a path is exactly the argument record of the most recent call
for that path — `INSERT OR REPLACE` fully replaces, never appends. -/
theorem c2_dedup_invariant (calls : List Record) (p : String) :
    ((applyMarks calls []).filter fun r => r.filepath == p).length ≤ 1 ∧
    (applyMarks calls []).filter (fun r => r.filepath == p) =
      (match latestCallFor calls p with
       | some r => [r]
       | none => []) := by
  have h := applyMarks_filter calls [] p
  constructor
  · rw [h]
    cases latestCallFor calls p <;> simp
  · rw [h]
    cases latestCallFor calls p <;> simp

/-- Claim C3: an exception raised while handling one file (in the embedding
the summarizer oracle is the fallible stage; identity resolution, observation
building and the store upsert are total) is caught at the per-file boundary
and recorded as `error: <message truncated to 100 characters>` with the file
counted as failed; every candidate of a run reaches a terminal record, and
`success + failed = total = number of candidates`; in the concrete batch of 5
where file 3 raises during summarization, all five files get terminal
records and the summary is `total = 5`, `success = 4`, `failed = 1`. -/
theorem c3_failure_isolation :
    (∀ (cfg : MapperConfig) (oracle : String → Except String Fields)
       (st : List Record) (mem : List (String × String)) (f : FileInfo) (e : String),
       pyStrip f.content.data ≠ [] →
       oracle (f.content.data.take 50000).asString = Except.error e →
       process_single cfg oracle st mem f =
         ⟨mark_processed st ⟨f.path, f.filename, "unknown", "unknown",
            "error: " ++ (e.data.take 100).asString⟩, mem, false, 1⟩) ∧
    (∀ (cfg : MapperConfig) (oracle : String → Except String Fields)
       (limit : Option Int) (st₀ : List Record) (mem₀ : List (String × String))
       (files : List FileInfo),
       (run cfg oracle limit st₀ mem₀ files).success +
         (run cfg oracle limit st₀ mem₀ files).failed =
         (run cfg oracle limit st₀ mem₀ files).total ∧
       (run cfg oracle limit st₀ mem₀ files).total =
         (candidatesOf st₀ files limit).length ∧
       ∀ f ∈ candidatesOf st₀ files limit,
         is_processed (run cfg oracle limit st₀ mem₀ files).store f.path = true) ∧
    run cfgC3 oracleC3 none [] [] batchC3 =
      ⟨[⟨"/t/f1.txt", "f1.txt", "2025-01-01", "Asurion", "success"⟩,
        ⟨"/t/f2.txt", "f2.txt", "2025-01-01", "Asurion", "success"⟩,
        ⟨"/t/f3.txt", "f3.txt", "unknown", "unknown", "error: boom during summarization"⟩,
        ⟨"/t/f4.txt", "f4.txt", "2025-01-01", "Asurion", "success"⟩,
        ⟨"/t/f5.txt", "f5.txt", "2025-01-01", "Asurion", "success"⟩],
       [("Asurion", "2025-01-01:"), ("Asurion", "2025-01-01:"),
        ("Asurion", "2025-01-01:"), ("Asurion", "2025-01-01:")],
       5, 4, 1, 5⟩ := by
  refine ⟨?_, ?_, by decide⟩
  · intro cfg oracle st mem f e hne herr
    unfold process_single process_file_model
    rw [if_neg hne, herr]
  · intro cfg oracle limit st₀ mem₀ files
    refine ⟨runList_counts cfg oracle (candidatesOf st₀ files limit) st₀ mem₀, rfl, ?_⟩
    intro f hf
    rw [run_store, runList_is_processed]
    have hany : ((candidatesOf st₀ files limit).any fun g => g.path == f.path) = true :=
      List.any_eq_true.mpr ⟨f, hf, by simp⟩
    simp [hany]

/-- Claim C3 witness: the per-file error clause applied to the concrete
third file of the batch. -/
theorem c3_failure_isolation_witness :
    pyStrip "c3".data ≠ [] ∧
    process_single cfgC3 oracleC3 [] [] ⟨"/t/f3.txt", "f3.txt", "t", "c3"⟩ =
      ⟨[⟨"/t/f3.txt", "f3.txt", "unknown", "unknown",
         "error: " ++ ("boom during summarization".data.take 100).asString⟩], [], false, 1⟩ :=
  ⟨by decide, by
    have h := c3_failure_isolation.1 cfgC3 oracleC3 [] []
      ⟨"/t/f3.txt", "f3.txt", "t", "c3"⟩ "boom during summarization" (by decide) rfl
    simpa [mark_processed] using h⟩

/-- Claim C4 counterexample: with `limit = 0` (an integer) and one unprocessed
candidate, the claim predicts that the first 0 candidates are processed and
`total = 0`; the code treats `0` as falsy (`if limit:`), skips truncation and
processes the whole candidate list, returning `total = 1`. -/
theorem c4_counterexample :
    ¬ ((run ⟨[], [], "Other"⟩ (fun _ => Except.error "x") (some 0) [] []
        [⟨"/t/a.txt", "a.txt", "t", "hello"⟩]).total = 0) := by decide

/-- Claim C4 as amended: for every POSITIVE integer limit `N`, the run
truncates to, and processes, exactly the first `N` unprocessed candidates in
enumeration order (all of them when fewer exist), and returns
`total = min N (number of candidates)`; `limit = 0` and `limit = None`
mean no truncation. -/
theorem c4_limit_amended (cfg : MapperConfig) (oracle : String → Except String Fields)
    (st₀ : List Record) (mem₀ : List (String × String)) (files : List FileInfo)
    (N : Int) (hN : 0 < N) :
    candidatesOf st₀ files (some N) =
      (files.filter fun f => !(is_processed st₀ f.path)).take N.toNat ∧
    run cfg oracle (some N) st₀ mem₀ files =
      run cfg oracle none st₀ mem₀
        ((files.filter fun f => !(is_processed st₀ f.path)).take N.toNat) ∧
    (run cfg oracle (some N) st₀ mem₀ files).total =
      min N.toNat (files.filter fun f => !(is_processed st₀ f.path)).length := by
  have hc : candidatesOf st₀ files (some N) =
      (files.filter fun f => !(is_processed st₀ f.path)).take N.toNat := by
    have hm : candidatesOf st₀ files (some N) =
        (if N = 0 then (files.filter fun f => !(is_processed st₀ f.path))
         else pySlice N (files.filter fun f => !(is_processed st₀ f.path))) := rfl
    rw [hm, if_neg (by omega : ¬ N = 0)]
    unfold pySlice
    rw [if_pos (le_of_lt hN)]
  have hself : candidatesOf st₀
      ((files.filter fun f => !(is_processed st₀ f.path)).take N.toNat) none =
      (files.filter fun f => !(is_processed st₀ f.path)).take N.toNat := by
    unfold candidatesOf
    rw [List.filter_eq_self]
    intro f hf
    have hm := List.mem_of_mem_take hf
    exact (List.mem_filter.mp hm).2
  refine ⟨hc, ?_, ?_⟩
  · unfold run
    rw [hc, hself]
  · show (candidatesOf st₀ files (some N)).length = _
    rw [hc, List.length_take]

/-- Claim C4 witness: `runSync(limit=2)` against 5 unprocessed candidates
returns `total = 2`. -/
theorem c4_limit_amended_witness :
    (0 : Int) < 2 ∧ (run cfgC3 oracleC3 (some 2) [] [] batchC3).total = 2 := by
  refine ⟨by decide, ?_⟩
  have h := (c4_limit_amended cfgC3 oracleC3 [] [] batchC3 2 (by decide)).2.2
  rw [h]
  decide

/-- Claim C7: a file whose contents are whitespace-only is summarized to the
empty field set with zero external calls, recorded with `status = "empty"`,
`meeting_date = "unknown"` and the resolved client, counted as failed
(`failed = 1`, `success = 0`), queues no observation, and its path is
excluded from `unprocessedOf` afterwards. -/
theorem c7_empty_transcript (cfg : MapperConfig) (oracle : String → Except String Fields)
    (f : FileInfo) (h : pyStrip f.content.data = []) :
    run cfg oracle none [] [] [f] =
      ⟨[⟨f.path, f.filename, "unknown", resolved_client cfg f.parent f.filename, "empty"⟩],
       [], 1, 0, 1, 0⟩ ∧
    get_unprocessed (run cfg oracle none [] [] [f]).store [f.path] = [] := by
  have hsingle : process_single cfg oracle [] [] f =
      ⟨[⟨f.path, f.filename, "unknown", resolved_client cfg f.parent f.filename, "empty"⟩],
       [], false, 0⟩ := by
    unfold process_single process_file_model
    rw [if_pos h]
    simp [mark_processed]
  have hrun : run cfg oracle none [] [] [f] =
      ⟨[⟨f.path, f.filename, "unknown", resolved_client cfg f.parent f.filename, "empty"⟩],
       [], 1, 0, 1, 0⟩ := by
    have hcand : candidatesOf [] [f] none = [f] := rfl
    have hl : runList cfg oracle [f] [] [] =
        ((process_single cfg oracle [] [] f).store,
         (process_single cfg oracle [] [] f).mem,
         (if (process_single cfg oracle [] [] f).ok then 0 + 1 else 0),
         (if (process_single cfg oracle [] [] f).ok then 0 else 0 + 1),
         (process_single cfg oracle [] [] f).calls + 0) := rfl
    rw [run_eq, hcand, hl, hsingle]
    rfl
  refine ⟨hrun, ?_⟩
  rw [hrun]
  unfold get_unprocessed is_processed
  simp

/-- Claim C7 witness: a concrete whitespace-only transcript. -/
theorem c7_empty_transcript_witness :
    pyStrip "  \n ".data = [] ∧
    run ⟨[], [], "Other"⟩ (fun _ => Except.ok {}) none [] []
      [⟨"/t/e.txt", "e.txt", "t", "  \n "⟩] =
      ⟨[⟨"/t/e.txt", "e.txt", "unknown", "Other", "empty"⟩], [], 1, 0, 1, 0⟩ :=
  ⟨by decide, by
    rw [(c7_empty_transcript ⟨[], [], "Other"⟩ (fun _ => Except.ok {})
      ⟨"/t/e.txt", "e.txt", "t", "  \n "⟩ (by decide)).1]
    decide⟩

/-- Claim C10: on the per-file error path the recorded row always carries
`client_entity = "unknown"` and `meeting_date = "unknown"`, discarding the
resolved client label — whatever the configuration resolved it to. -/
theorem c10_error_discards_resolved_client (cfg : MapperConfig)
    (oracle : String → Except String Fields) (st : List Record)
    (mem : List (String × String)) (f : FileInfo) (e : String)
    (hne : pyStrip f.content.data ≠ [])
    (herr : oracle (f.content.data.take 50000).asString = Except.error e) :
    (process_single cfg oracle st mem f).store =
      mark_processed st ⟨f.path, f.filename, "unknown", "unknown",
        "error: " ++ (e.data.take 100).asString⟩ := by
  unfold process_single process_file_model
  rw [if_neg hne, herr]

/-- Claim C10 witness: the configuration resolves the folder to "Asurion",
yet the errored file's record says "unknown". -/
theorem c10_witness :
    resolved_client ⟨[("Clients", "Asurion")], [], "Other"⟩ "Clients" "m.txt" = "Asurion" ∧
    (process_single ⟨[("Clients", "Asurion")], [], "Other"⟩ (fun _ => Except.error "boom")
      [] [] ⟨"/c/m.txt", "m.txt", "Clients", "hello"⟩).store =
      [⟨"/c/m.txt", "m.txt", "unknown", "unknown", "error: boom"⟩] :=
  ⟨by decide, by
    rw [c10_error_discards_resolved_client ⟨[("Clients", "Asurion")], [], "Other"⟩
      (fun _ => Except.error "boom") [] [] ⟨"/c/m.txt", "m.txt", "Clients", "hello"⟩
      "boom" (by decide) rfl]
    decide⟩

/-! ## Lemmas for the Identity Resolver and classifier claims -/

theorem lookup_pattern_eq_find (cfg : MapperConfig) (filename : String)
    (pats : List (String × String)) :
    lookup_pattern cfg filename pats =
      (match pats.find? (fun pr => containsPat (pyLower pr.1.data) (pyLower filename.data)) with
       | some pr => pr.2
       | none => cfg.default_client) := by
  induction pats with
  | nil => rfl
  | cons pr rest ih =>
    rcases pr with ⟨pat, client⟩
    by_cases h : containsPat (pyLower pat.data) (pyLower filename.data) = true
    · simp [lookup_pattern, List.find?_cons, h]
    · simp only [Bool.not_eq_true] at h
      simp [lookup_pattern, List.find?_cons, h, ih]

theorem pyRstrip_pyRstrip (l : List Char) : pyRstrip (pyRstrip l) = pyRstrip l := by
  unfold pyRstrip
  rw [List.reverse_reverse, List.dropWhile_idempotent]

theorem pyRstrip_pyStrip (l : List Char) : pyRstrip (pyStrip l) = pyStrip l := by
  unfold pyStrip
  exact pyRstrip_pyRstrip (pyLstrip l)

theorem extract_title_rstrip (filename : String) :
    pyRstrip (extract_title filename).data = (extract_title filename).data := by
  unfold extract_title
  cases h : findSpacedDate filename.data with
  | some i => exact pyRstrip_pyStrip _
  | none => exact pyRstrip_pyStrip _

theorem findSeries_eq_contains (ls : List String) (title : String)
    (h : pyRstrip title.data = title.data) :
    findSeries ls title = (if ls.contains title then some title else none) := by
  induction ls with
  | nil => rfl
  | cons s rest ih =>
    by_cases hs : title = s
    · subst hs
      simp [findSeries, List.contains_cons]
    · have h1 : (title == s) = false := beq_eq_false_iff_ne.mpr hs
      have h2 : ((pyRstrip title.data).asString == s) = false := by
        rw [h]
        exact h1
      have h3 : (s == title) = false := beq_eq_false_iff_ne.mpr fun hh => hs hh.symm
      simp [findSeries, h1, h2, h3, ih, List.contains_cons, hs]

theorem matchKeywordRules_eq_find (rules : List (String × List String)) (lower : List Char) :
    matchKeywordRules rules lower =
      ((rules.find? fun pr => pr.2.any fun kw => containsPat kw.data lower).map Prod.fst) := by
  induction rules with
  | nil => rfl
  | cons pr rest ih =>
    rcases pr with ⟨folder, kws⟩
    by_cases h : (kws.any fun kw => containsPat kw.data lower) = true
    · simp [matchKeywordRules, List.find?_cons, h]
    · simp only [Bool.not_eq_true] at h
      simp [matchKeywordRules, List.find?_cons, h, ih]

/-- Claim C5 counterexample: with a configuration whose default label is
"Unknown" (not "Other") and a series missing from the map, the primary lookup
yields the configured default, yet the code's hardcoded `if client == "Other"`
test never fires, so the filename fallback (which would return "Asurion") is
skipped and the resolver returns "Unknown". -/
theorem c5_counterexample :
    get_client ⟨[], [("asurion", "Asurion")], "Unknown"⟩ "Weekly Sync" =
      (⟨[], [("asurion", "Asurion")], "Unknown"⟩ : MapperConfig).default_client ∧
    get_client_from_filename ⟨[], [("asurion", "Asurion")], "Unknown"⟩
      "Asurion x Section 2025-09-22 12_31 transcript.txt" = "Asurion" ∧
    resolved_client ⟨[], [("asurion", "Asurion")], "Unknown"⟩ "Weekly Sync"
      "Asurion x Section 2025-09-22 12_31 transcript.txt" = "Unknown" ∧
    ("Unknown" : String) ≠ "Asurion" :=
  ⟨by decide, by decide, by decide, by decide⟩

/-- Claim C5 as amended: the filename-keyword fallback is applied exactly when
the primary lookup yields the LITERAL label "Other" (which coincides with the
configured default only when that default is "Other"); the fallback itself
returns the label of the first pattern, in rule order, that is a
case-insensitive substring of the filename, and the configured default when no
pattern matches. -/
theorem c5_fallback_amended (cfg : MapperConfig) (series filename : String) :
    resolved_client cfg series filename =
      (if get_client cfg series = "Other" then get_client_from_filename cfg filename
       else get_client cfg series) ∧
    get_client_from_filename cfg filename = claimC5_fallback cfg filename := by
  refine ⟨rfl, ?_⟩
  unfold get_client_from_filename claimC5_fallback
  exact lookup_pattern_eq_find cfg filename cfg.filename_patterns

/-- Claim C8: `build_observation` equals the specification-side assembly (the
four segments in the fixed order, absent segments contributing nothing, joined
by single spaces), and on the claim's example fields it produces exactly
"2025-01-15: Discussed Roadmap, Budget, Team. Q1 deadline Potential follow-up:
Prep doc", whose required substrings appear in the stated relative order. -/
theorem c8_observation_assembly :
    (∀ f : Fields, build_observation f = claimC8_observation f) ∧
    build_observation
      ⟨none, some "2025-01-15", none, none, some ["Roadmap", "Budget", "Team"],
       some ["Q1 deadline"], some ["Prep doc"]⟩ =
      "2025-01-15: Discussed Roadmap, Budget, Team. Q1 deadline Potential follow-up: Prep doc" := by
  constructor
  · intro f
    obtain ⟨mt, d, pc, att, mts, kc, iw⟩ := f
    unfold build_observation claimC8_observation
    cases d <;>
      rcases mts with _ | ⟨_ | ⟨t, ts⟩⟩ <;>
      rcases kc with _ | ⟨_ | ⟨c, cs⟩⟩ <;>
      rcases iw with _ | ⟨_ | ⟨w, ws⟩⟩ <;>
      rfl
  · decide

/-- Claim C9 counterexample: the claim says the no-date title fallback strips
the known TRAILING suffix; the code's `str.replace` removes EVERY occurrence.
On "All Hands transcript.txt transcript.txt" the code's title is "All Hands"
(a recurring series, so the file is classified "All Hands"), while the
claim's title is "All Hands transcript.txt", which matches no series, so the
claim predicts the catch-all "Individual Meetings". -/
theorem c9_counterexample :
    classify_file "All Hands transcript.txt transcript.txt" = "All Hands" ∧
    claimC9_classify "All Hands transcript.txt transcript.txt" = "Individual Meetings" ∧
    ("All Hands" : String) ≠ "Individual Meetings" :=
  ⟨by decide, by decide, by decide⟩

/-- Claim C9 as amended: the four-step first-match-wins cascade exactly as
claimed, except that the no-date-token title fallback removes EVERY occurrence
of the known suffix " transcript.txt" (as `str.replace` does), not only a
trailing one, before trimming. -/
theorem c9_cascade_amended (filename : String) :
    classify_file filename = claimC9am_classify filename := by
  simp only [classify_file, claimC9am_classify, claimC9_cascade]
  rw [matchKeywordRules_eq_find]
  cases hf : (CLIENT_MAPPINGS.find? fun pr =>
      pr.2.any fun kw => containsPat kw.data (pyLower filename.data)) with
  | some pr => rfl
  | none =>
    by_cases hp : (PERSONAL_KEYWORDS.any fun kw =>
        containsPat kw.data (pyLower filename.data)) = true
    · simp [hp]
    · simp only [Bool.not_eq_true] at hp
      rw [findSeries_eq_contains RECURRING_SERIES (extract_title filename)
        (extract_title_rstrip filename)]
      by_cases hm : extract_title filename ∈ RECURRING_SERIES
      · simp [hp, hm]
      · simp [hp, hm]

/-! ## Lemmas for the Summarizer response-parsing claim -/

theorem isPrefixOf_append_self (p t : List Char) : p.isPrefixOf (p ++ t) = true := by
  induction p with
  | nil => simp [List.isPrefixOf]
  | cons c cs ih => simp [List.isPrefixOf, ih]

theorem containsPat_head (pat l : List Char) (h : pat.isPrefixOf l = true)
    (hp : pat ≠ []) : containsPat pat l = true := by
  cases l with
  | nil =>
    cases pat with
    | nil => exact absurd rfl hp
    | cons c cs => exact absurd h (by simp [List.isPrefixOf])
  | cons c cs => simp [containsPat, h]

theorem containsPat_tick_eq_false (p' l : List Char)
    (h : l.all (fun c => c ≠ tick) = true) :
    containsPat (tick :: p') l = false := by
  induction l with
  | nil => rfl
  | cons c cs ih =>
    rw [List.all_cons] at h
    obtain ⟨hc, hcs⟩ := Bool.and_eq_true_iff.mp h
    have hbe : (tick == c) = false :=
      beq_eq_false_iff_ne.mpr fun hh => (of_decide_eq_true hc) hh.symm
    simp [containsPat, List.isPrefixOf, hbe, ih hcs]

theorem containsPat_tick_append (p' l t : List Char)
    (h : l.all (fun c => c ≠ tick) = true) :
    containsPat (tick :: p') (l ++ t) = containsPat (tick :: p') t := by
  induction l with
  | nil => rfl
  | cons c cs ih =>
    rw [List.all_cons] at h
    obtain ⟨hc, hcs⟩ := Bool.and_eq_true_iff.mp h
    have hbe : (tick == c) = false :=
      beq_eq_false_iff_ne.mpr fun hh => (of_decide_eq_true hc) hh.symm
    simp [containsPat, List.isPrefixOf, hbe, ih hcs]

theorem beforeFirst_tick_append (p' l t : List Char)
    (h : l.all (fun c => c ≠ tick) = true) :
    beforeFirst (tick :: p') (l ++ t) = l ++ beforeFirst (tick :: p') t := by
  induction l with
  | nil => rfl
  | cons c cs ih =>
    rw [List.all_cons] at h
    obtain ⟨hc, hcs⟩ := Bool.and_eq_true_iff.mp h
    have hbe : (tick == c) = false :=
      beq_eq_false_iff_ne.mpr fun hh => (of_decide_eq_true hc) hh.symm
    simp [beforeFirst, List.isPrefixOf, hbe, ih hcs]

theorem afterFirst_tick_append (p' l t : List Char)
    (h : l.all (fun c => c ≠ tick) = true) :
    afterFirst (tick :: p') (l ++ t) = afterFirst (tick :: p') t := by
  induction l with
  | nil => rfl
  | cons c cs ih =>
    rw [List.all_cons] at h
    obtain ⟨hc, hcs⟩ := Bool.and_eq_true_iff.mp h
    have hbe : (tick == c) = false :=
      beq_eq_false_iff_ne.mpr fun hh => (of_decide_eq_true hc) hh.symm
    simp [afterFirst, List.isPrefixOf, hbe, ih hcs]

theorem beforeFirst_eq_self (pat l : List Char) (h : containsPat pat l = false) :
    beforeFirst pat l = l := by
  induction l with
  | nil => rfl
  | cons c cs ih =>
    rw [containsPat] at h
    obtain ⟨h1, h2⟩ := Bool.or_eq_false_iff.mp h
    simp [beforeFirst, h1, ih h2]

theorem afterFirst_head_match (pat : List Char) (x : Char) (xs : List Char)
    (h : pat.isPrefixOf (x :: xs) = true) :
    afterFirst pat (x :: xs) = (x :: xs).drop pat.length := by
  simp [afterFirst, h]

theorem afterFirst_append_head (pat t : List Char) (hp : pat ≠ []) :
    afterFirst pat (pat ++ t) = t := by
  cases hpat : pat with
  | nil => exact absurd hpat hp
  | cons c cs =>
    rw [← hpat]
    have h : pat.isPrefixOf (pat ++ t) = true := isPrefixOf_append_self pat t
    have hcons : pat ++ t = c :: (cs ++ t) := by rw [hpat]; rfl
    rw [hcons] at h ⊢
    rw [afterFirst_head_match pat c (cs ++ t) h, ← hcons, List.drop_left]

theorem isPrefixOf_trans (a b c : List Char) (h1 : a.isPrefixOf b = true)
    (h2 : b.isPrefixOf c = true) : a.isPrefixOf c = true := by
  induction a generalizing b c with
  | nil => simp [List.isPrefixOf]
  | cons x a' ih =>
    cases b with
    | nil => simp [List.isPrefixOf] at h1
    | cons y b' =>
      cases c with
      | nil => simp [List.isPrefixOf] at h2
      | cons z c' =>
        simp only [List.isPrefixOf, Bool.and_eq_true, beq_iff_eq] at h1 h2 ⊢
        exact ⟨h1.1.trans h2.1, ih b' c' h1.2 h2.2⟩

theorem containsPat_mono (p q l : List Char) (hpq : p.isPrefixOf q = true)
    (h : containsPat q l = true) : containsPat p l = true := by
  induction l with
  | nil =>
    rw [containsPat] at h ⊢
    cases q with
    | nil =>
      cases p with
      | nil => rfl
      | cons a as => simp [List.isPrefixOf] at hpq
    | cons b bs => simp [List.isEmpty] at h
  | cons c cs ih =>
    rw [containsPat] at h ⊢
    rcases Bool.or_eq_true_iff.mp h with h1 | h2
    · exact Bool.or_eq_true_iff.mpr (Or.inl (isPrefixOf_trans p q _ hpq h1))
    · exact Bool.or_eq_true_iff.mpr (Or.inr (ih h2))

theorem isPrefixOf_tick_false (q post : List Char)
    (hpost : post.all (fun c => c ≠ tick) = true) :
    (tick :: q).isPrefixOf post = false := by
  cases post with
  | nil => rfl
  | cons p0 ps =>
    rw [List.all_cons] at hpost
    have hp0 : (tick == p0) = false :=
      beq_eq_false_iff_ne.mpr fun hh =>
        (of_decide_eq_true (Bool.and_eq_true_iff.mp hpost).1) hh.symm
    simp [List.isPrefixOf, hp0]

theorem beforeFirst_nil_of_head_match (pat l : List Char)
    (h : pat.isPrefixOf l = true) : beforeFirst pat l = [] := by
  cases l with
  | nil => rfl
  | cons c cs => simp [beforeFirst, h]

theorem containsPat_t3json_t3_append (post : List Char)
    (hpost : post.all (fun c => c ≠ tick) = true)
    (hb : t3json.isPrefixOf (t3 ++ post) = false) :
    containsPat t3json (t3 ++ post) = false := by
  have hshape : t3 ++ post = tick :: tick :: tick :: post := by
    have ht : t3 = [tick, tick, tick] := by decide
    rw [ht]
    rfl
  rw [hshape] at hb ⊢
  have ht3j : t3json = tick :: tick :: tick :: "json".data := by decide
  have h1 : t3json.isPrefixOf (tick :: tick :: post) = false := by
    rw [ht3j]
    simp only [List.isPrefixOf, beq_self_eq_true, Bool.true_and]
    exact isPrefixOf_tick_false _ post hpost
  have h2 : t3json.isPrefixOf (tick :: post) = false := by
    rw [ht3j]
    simp only [List.isPrefixOf, beq_self_eq_true, Bool.true_and]
    exact isPrefixOf_tick_false _ post hpost
  have h3 : containsPat t3json post = false := by
    have ht3j2 : t3json = tick :: "``json".data := by decide
    rw [ht3j2]
    exact containsPat_tick_eq_false _ _ hpost
  simp only [containsPat]
  rw [hb, h1, h2, h3]
  rfl

theorem fencedExtract_json_wrapped (pre body post : List Char)
    (hpre : pre.all (fun c => c ≠ tick) = true)
    (hbody : body.all (fun c => c ≠ tick) = true)
    (hpost : post.all (fun c => c ≠ tick) = true) :
    fencedExtract (pre ++ (t3json ++ (body ++ (t3 ++ post)))) = body := by
  have ht3j : t3json = tick :: "``json".data := by decide
  have ht3 : t3 = tick :: "``".data := by decide
  have hcontains :
      containsPat t3json (pre ++ (t3json ++ (body ++ (t3 ++ post)))) = true := by
    rw [ht3j, containsPat_tick_append _ _ _ hpre, ← ht3j]
    exact containsPat_head _ _ (isPrefixOf_append_self _ _) (by decide)
  have hafter : afterFirst t3json (pre ++ (t3json ++ (body ++ (t3 ++ post)))) =
      body ++ (t3 ++ post) := by
    rw [ht3j, afterFirst_tick_append _ _ _ hpre, ← ht3j]
    exact afterFirst_append_head _ _ (by decide)
  have hbodyB : beforeFirst t3json (body ++ (t3 ++ post)) =
      body ++ beforeFirst t3json (t3 ++ post) := by
    rw [ht3j, beforeFirst_tick_append _ _ _ hbody]
  cases hb : t3json.isPrefixOf (t3 ++ post) with
  | false =>
    have hnc : containsPat t3json (t3 ++ post) = false :=
      containsPat_t3json_t3_append post hpost hb
    have hB : beforeFirst t3json (t3 ++ post) = t3 ++ post :=
      beforeFirst_eq_self _ _ hnc
    have houter : beforeFirst t3 (body ++ (t3 ++ post)) = body := by
      rw [ht3, beforeFirst_tick_append _ _ _ hbody, ← ht3]
      rw [beforeFirst_nil_of_head_match t3 (t3 ++ post) (isPrefixOf_append_self _ _),
        List.append_nil]
    unfold fencedExtract
    rw [if_pos hcontains, hafter, hbodyB, hB, houter]
  | true =>
    have hB : beforeFirst t3json (t3 ++ post) = [] :=
      beforeFirst_nil_of_head_match _ _ hb
    have houter : beforeFirst t3 (body ++ []) = body := by
      rw [List.append_nil]
      apply beforeFirst_eq_self
      rw [ht3]
      exact containsPat_tick_eq_false _ _ hbody
    unfold fencedExtract
    rw [if_pos hcontains, hafter, hbodyB, hB, houter]

theorem fencedExtract_plain_wrapped (pre mid post : List Char)
    (hpre : pre.all (fun c => c ≠ tick) = true)
    (hmid : mid.all (fun c => c ≠ tick) = true)
    (hnoj : containsPat t3json (pre ++ (t3 ++ (mid ++ (t3 ++ post)))) = false) :
    fencedExtract (pre ++ (t3 ++ (mid ++ (t3 ++ post)))) = mid := by
  have ht3 : t3 = tick :: "``".data := by decide
  have hc3 : containsPat t3 (pre ++ (t3 ++ (mid ++ (t3 ++ post)))) = true := by
    rw [ht3, containsPat_tick_append _ _ _ hpre, ← ht3]
    exact containsPat_head _ _ (isPrefixOf_append_self _ _) (by decide)
  have hafter : afterFirst t3 (pre ++ (t3 ++ (mid ++ (t3 ++ post)))) =
      mid ++ (t3 ++ post) := by
    rw [ht3, afterFirst_tick_append _ _ _ hpre, ← ht3]
    exact afterFirst_append_head _ _ (by decide)
  have hinner : beforeFirst t3 (mid ++ (t3 ++ post)) = mid := by
    rw [ht3, beforeFirst_tick_append _ _ _ hmid, ← ht3]
    rw [beforeFirst_nil_of_head_match t3 (t3 ++ post) (isPrefixOf_append_self _ _),
      List.append_nil]
  have houter : beforeFirst t3 mid = mid := by
    apply beforeFirst_eq_self
    rw [ht3]
    exact containsPat_tick_eq_false _ _ hmid
  unfold fencedExtract
  rw [if_neg (by rw [hnoj]; simp), if_pos hc3, hafter, hinner, houter]

theorem parse_response_eq (s : String) :
    parse_response s = parseOrEmpty (fencedExtract s.data) := by
  unfold parse_response parseOrEmpty
  cases jparse (pyStrip (fencedExtract s.data)) <;> rfl

/-- Claim C6 counterexample: the claim says a leading fence is stripped "with
or without a language tag"; the code only strips the tag for ````json`.  For a
`python`-tagged fenced object the code leaves `python` glued to the payload,
the parse fails, and the adapter returns the empty dict — while the claim's
own stripping would parse the object successfully. -/
theorem c6_counterexample :
    parse_response "```python\n\x7b\"date\": \"2025-01-01\"\x7d\n```" = JVal.jobj [] ∧
    claimC6_parse "```python\n\x7b\"date\": \"2025-01-01\"\x7d\n```" =
      JVal.jobj [("date", JVal.jstr "2025-01-01")] ∧
    JVal.jobj [] ≠ JVal.jobj [("date", JVal.jstr "2025-01-01")] :=
  ⟨rfl, rfl, by
    intro hcontra
    injection hcontra with h1
    exact (List.cons_ne_nil _ _) h1.symm⟩

/-- Claim C6 as amended: the adapter is total — for EVERY response text it
returns the degraded parse of the extracted segment, never raising: on parse
failure the empty field set, on success the parsed value whatever its JSON
type.  The extraction: any text with no ``` fence at all is used whole; a
response made of backtick-free prose (possibly empty, on either side) around a
````json`-fenced backtick-free payload is reduced to the payload between the
fences; likewise for a plain ``` fence when ````json` occurs nowhere in the
text — so a language tag other than `json` is NOT stripped: it stays glued to
the segment and such responses parse as failure, yielding the empty field
set. -/
theorem c6_degraded_parse_amended :
    (∀ s : String, parse_response s = parseOrEmpty (fencedExtract s.data)) ∧
    (∀ s : String, containsPat t3 s.data = false →
       parse_response s = parseOrEmpty s.data) ∧
    (∀ pre body post : String,
       pre.data.all (fun c => c ≠ tick) = true →
       body.data.all (fun c => c ≠ tick) = true →
       post.data.all (fun c => c ≠ tick) = true →
       parse_response (pre ++ "```json" ++ body ++ "```" ++ post) =
         parseOrEmpty body.data) ∧
    (∀ pre mid post : String,
       pre.data.all (fun c => c ≠ tick) = true →
       mid.data.all (fun c => c ≠ tick) = true →
       containsPat t3json (pre ++ "```" ++ mid ++ "```" ++ post).data = false →
       parse_response (pre ++ "```" ++ mid ++ "```" ++ post) =
         parseOrEmpty mid.data) := by
  refine ⟨parse_response_eq, ?_, ?_, ?_⟩
  · intro s hs
    rw [parse_response_eq]
    have h1 : containsPat t3json s.data = false := by
      cases hq : containsPat t3json s.data with
      | false => rfl
      | true =>
        have hmono := containsPat_mono t3 t3json s.data (by decide) hq
        rw [hs] at hmono
        exact absurd hmono (by simp)
    have hfe : fencedExtract s.data = s.data := by
      unfold fencedExtract
      rw [if_neg (by rw [h1]; simp), if_neg (by rw [hs]; simp)]
    rw [hfe]
  · intro pre body post hpre hbody hpost
    rw [parse_response_eq]
    have hdata : (pre ++ "```json" ++ body ++ "```" ++ post).data =
        pre.data ++ (t3json ++ (body.data ++ (t3 ++ post.data))) := by
      simp only [String.data_append, List.append_assoc]
      rfl
    rw [hdata, fencedExtract_json_wrapped pre.data body.data post.data hpre hbody hpost]
  · intro pre mid post hpre hmid hnoj
    rw [parse_response_eq]
    have hdata : (pre ++ "```" ++ mid ++ "```" ++ post).data =
        pre.data ++ (t3 ++ (mid.data ++ (t3 ++ post.data))) := by
      simp only [String.data_append, List.append_assoc]
      rfl
    rw [hdata] at hnoj
    rw [hdata, fencedExtract_plain_wrapped pre.data mid.data post.data hpre hmid hnoj]

/-- Claim C6 witness: a prose-wrapped `json`-fenced response is stripped to
its payload, which parses to the expected object. -/
theorem c6_degraded_parse_amended_witness :
    ("Here is the summary:\n" : String).data.all (fun c => c ≠ tick) = true ∧
    ("\n\x7b\"date\": \"2025-01-01\"\x7d\n" : String).data.all (fun c => c ≠ tick) = true ∧
    ("\nLet me know!" : String).data.all (fun c => c ≠ tick) = true ∧
    parse_response ("Here is the summary:\n" ++ "```json" ++
        "\n\x7b\"date\": \"2025-01-01\"\x7d\n" ++ "```" ++ "\nLet me know!") =
      parseOrEmpty ("\n\x7b\"date\": \"2025-01-01\"\x7d\n" : String).data ∧
    parseOrEmpty ("\n\x7b\"date\": \"2025-01-01\"\x7d\n" : String).data =
      JVal.jobj [("date", JVal.jstr "2025-01-01")] :=
  ⟨by decide, by decide, by decide,
   c6_degraded_parse_amended.2.2.1 "Here is the summary:\n"
     "\n\x7b\"date\": \"2025-01-01\"\x7d\n" "\nLet me know!"
     (by decide) (by decide) (by decide),
   rfl⟩

end Ambient
